import Mathlib

/-!
Verification of the contour ingress control-plane core against its source.

Part 1: the naming subsystem (`internal/envoy/cluster.go`).
Go strings are modelled as `List Char` (the inputs of interest are ASCII, where
Go's byte-wise `len`/slicing coincides with character-wise operations), machine
integers as `Nat` with explicit reduction modulo 2^32 where overflow matters.
-/

namespace Contour

/-- Reduce modulo 2^32, the word size of the SHA compression functions. -/
def w32 (n : Nat) : Nat := n % 4294967296

/-- 32-bit rotate right. -/
def rotr32 (k x : Nat) : Nat := w32 ((x >>> k) ||| (x <<< (32 - k)))

/-- 32-bit rotate left. -/
def rotl32 (k x : Nat) : Nat := w32 ((x <<< k) ||| (x >>> (32 - k)))

/-- SHA-256 Σ0. -/
def bigSigma0 (x : Nat) : Nat := rotr32 2 x ^^^ rotr32 13 x ^^^ rotr32 22 x

/-- SHA-256 Σ1. -/
def bigSigma1 (x : Nat) : Nat := rotr32 6 x ^^^ rotr32 11 x ^^^ rotr32 25 x

/-- SHA-256 σ0. -/
def smallSigma0 (x : Nat) : Nat := rotr32 7 x ^^^ rotr32 18 x ^^^ (x >>> 3)

/-- SHA-256 σ1. -/
def smallSigma1 (x : Nat) : Nat := rotr32 17 x ^^^ rotr32 19 x ^^^ (x >>> 10)

/-- SHA Ch function. -/
def chFn (x y z : Nat) : Nat := (x &&& y) ^^^ ((x ^^^ 4294967295) &&& z)

/-- SHA Maj function. -/
def majFn (x y z : Nat) : Nat := (x &&& y) ^^^ (x &&& z) ^^^ (y &&& z)

/-- SHA-256 round constants (FIPS 180-4, rendered in decimal). -/
def sha256K : List Nat :=
  [1116352408, 1899447441, 3049323471, 3921009573, 961987163,
   1508970993, 2453635748, 2870763221, 3624381080, 310598401,
   607225278, 1426881987, 1925078388, 2162078206, 2614888103,
   3248222580, 3835390401, 4022224774, 264347078, 604807628,
   770255983, 1249150122, 1555081692, 1996064986, 2554220882,
   2821834349, 2952996808, 3210313671, 3336571891, 3584528711,
   113926993, 338241895, 666307205, 773529912, 1294757372,
   1396182291, 1695183700, 1986661051, 2177026350, 2456956037,
   2730485921, 2820302411, 3259730800, 3345764771, 3516065817,
   3600352804, 4094571909, 275423344, 430227734, 506948616,
   659060556, 883997877, 958139571, 1322822218, 1537002063,
   1747873779, 1955562222, 2024104815, 2227730452, 2361852424,
   2428436474, 2756734187, 3204031479, 3329325298]

/-- SHA-256 initial state (FIPS 180-4, rendered in decimal). -/
def sha256H0 : List Nat :=
  [1779033703, 3144134277, 1013904242, 2773480762, 1359893119,
   2600822924, 528734635, 1541459225]

/-- Big-endian 8-byte rendering of a bit length. -/
def be64 (n : Nat) : List Nat :=
  [n >>> 56 % 256, n >>> 48 % 256, n >>> 40 % 256, n >>> 32 % 256,
   n >>> 24 % 256, n >>> 16 % 256, n >>> 8 % 256, n % 256]

/-- Merkle–Damgård padding shared by SHA-1 and SHA-256: append 0x80, zero bytes
to 56 mod 64, then the 64-bit big-endian bit length. -/
def padMessage (msg : List Nat) : List Nat :=
  let padZeros := (120 - (msg.length + 1) % 64) % 64
  msg ++ [0x80] ++ List.replicate padZeros 0 ++ be64 (msg.length * 8)

/-- Split a byte list into 64-byte blocks; the fuel is an upper bound on the
number of blocks (structural recursion so that the kernel can evaluate it). -/
def chunks64Aux : Nat → List Nat → List (List Nat)
  | _, [] => []
  | 0, l => [l]
  | fuel + 1, x :: xs => ((x :: xs).take 64) :: chunks64Aux fuel ((x :: xs).drop 64)

/-- Split a byte list into 64-byte blocks. -/
def chunks64 (l : List Nat) : List (List Nat) := chunks64Aux l.length l

/-- Big-endian 32-bit words from bytes. -/
def toWords : List Nat → List Nat
  | a :: b :: c :: d :: rest => (a <<< 24 ||| b <<< 16 ||| c <<< 8 ||| d) :: toWords rest
  | _ => []

/-- Extend a (reversed, newest-first) SHA-256 message schedule by k words. -/
def extendSchedule256 : Nat → List Nat → List Nat
  | 0, acc => acc
  | k + 1, acc =>
    let nw := w32 (smallSigma1 (acc.getD 1 0) + acc.getD 6 0 + smallSigma0 (acc.getD 14 0) + acc.getD 15 0)
    extendSchedule256 k (nw :: acc)

/-- Full 64-word SHA-256 message schedule of a 16-word block. -/
def schedule256 (block : List Nat) : List Nat := (extendSchedule256 48 block.reverse).reverse

/-- One SHA-256 compression round; the state is the 8-word working vector. -/
def round256 (st : List Nat) (kw : Nat) : List Nat :=
  match st with
  | [a, b, c, d, e, f, g, h] =>
    let t1 := w32 (h + bigSigma1 e + chFn e f g + kw)
    let t2 := w32 (bigSigma0 a + majFn a b c)
    [w32 (t1 + t2), a, b, c, w32 (d + t1), e, f, g]
  | st => st

/-- SHA-256 compression of one 64-byte block into the chaining state. -/
def processBlock256 (st : List Nat) (block : List Nat) : List Nat :=
  let w := schedule256 (toWords block)
  let kw := List.zipWith (fun a b => w32 (a + b)) sha256K w
  let st' := kw.foldl round256 st
  List.zipWith (fun a b => w32 (a + b)) st st'

/-- Big-endian bytes of a 32-bit word. -/
def wordBytes (w : Nat) : List Nat := [w >>> 24 % 256, w >>> 16 % 256, w >>> 8 % 256, w % 256]

/-- SHA-256 digest (32 bytes) of a byte string. -/
def sha256Bytes (msg : List Nat) : List Nat :=
  ((chunks64 (padMessage msg)).foldl processBlock256 sha256H0).foldr
    (fun w acc => wordBytes w ++ acc) []

/-- Lower-case hex digit. -/
def hexDigit (n : Nat) : Char :=
  if n = 0 then '0' else if n = 1 then '1' else if n = 2 then '2' else if n = 3 then '3'
  else if n = 4 then '4' else if n = 5 then '5' else if n = 6 then '6' else if n = 7 then '7'
  else if n = 8 then '8' else if n = 9 then '9' else if n = 10 then 'a' else if n = 11 then 'b'
  else if n = 12 then 'c' else if n = 13 then 'd' else if n = 14 then 'e' else 'f'

/-- Hex rendering of a byte list (Go `fmt.Sprintf("%x", b)`). -/
def hexOfBytes (bs : List Nat) : List Char :=
  bs.foldr (fun b acc => hexDigit (b / 16) :: hexDigit (b % 16) :: acc) []

/-- Bytes of an ASCII character string. -/
def strBytes (s : List Char) : List Nat := s.map Char.toNat

/-- Hex-encoded SHA-256 of a string: Go `fmt.Sprintf("%x", sha256.Sum256([]byte(r)))`. -/
def sha256hex (s : List Char) : List Char := hexOfBytes (sha256Bytes (strBytes s))

/-- SHA-1 round function, selected by round index. -/
def sha1f (t b c d : Nat) : Nat :=
  if t < 20 then (b &&& c) ||| ((b ^^^ 4294967295) &&& d)
  else if t < 40 then b ^^^ c ^^^ d
  else if t < 60 then (b &&& c) ||| (b &&& d) ||| (c &&& d)
  else b ^^^ c ^^^ d

/-- SHA-1 round constant, selected by round index. -/
def sha1k (t : Nat) : Nat :=
  if t < 20 then 1518500249 else if t < 40 then 1859775393
  else if t < 60 then 2400959708 else 3395469782

/-- SHA-1 initial state (rendered in decimal). -/
def sha1H0 : List Nat := [1732584193, 4023233417, 2562383102, 271733878, 3285377520]

/-- Extend a (reversed, newest-first) SHA-1 message schedule by k words. -/
def extendSchedule1 : Nat → List Nat → List Nat
  | 0, acc => acc
  | k + 1, acc =>
    let nw := rotl32 1 (acc.getD 2 0 ^^^ acc.getD 7 0 ^^^ acc.getD 13 0 ^^^ acc.getD 15 0)
    extendSchedule1 k (nw :: acc)

/-- Full 80-word SHA-1 message schedule of a 16-word block. -/
def schedule1 (block : List Nat) : List Nat := (extendSchedule1 64 block.reverse).reverse

/-- One SHA-1 compression round; the state is the 5-word working vector,
the input pairs a round index with a schedule word. -/
def round1 (st : List Nat) (tw : Nat × Nat) : List Nat :=
  match st with
  | [a, b, c, d, e] =>
    let tmp := w32 (rotl32 5 a + sha1f tw.1 b c d + e + sha1k tw.1 + tw.2)
    [tmp, a, rotl32 30 b, c, d]
  | st => st

/-- SHA-1 compression of one 64-byte block into the chaining state. -/
def processBlock1 (st : List Nat) (block : List Nat) : List Nat :=
  let w := schedule1 (toWords block)
  let st' := ((List.range 80).zip w).foldl round1 st
  List.zipWith (fun a b => w32 (a + b)) st st'

/-- SHA-1 digest (20 bytes) of a byte string: Go `sha1.Sum`. -/
def sha1Bytes (msg : List Nat) : List Nat :=
  ((chunks64 (padMessage msg)).foldl processBlock1 sha1H0).foldr
    (fun w acc => wordBytes w ++ acc) []

/-- Decimal rendering of a natural number: Go `strconv.Itoa` on non-negative input. -/
def itoa (n : Nat) : List Char := (Nat.repr n).data

/-- Go `(time.Duration(n) * time.Second).String()` for a whole number of
seconds: hours, then minutes, then seconds, lower units always printed once a
higher unit is present. -/
def durationChars (n : Nat) : List Char :=
  if n = 0 then ['0', 's']
  else
    let s := n % 60
    let m := n / 60 % 60
    let h := n / 3600
    if h > 0 then itoa h ++ ['h'] ++ itoa m ++ ['m'] ++ itoa s ++ ['s']
    else if m > 0 then itoa m ++ ['m'] ++ itoa s ++ ['s']
    else itoa s ++ ['s']

/-! ### Hashname (`cluster.go` lines 58-98) -/

/-- The length of the shorthash (`cluster.go` line 59). -/
def shorthash : Nat := 6

/-- `strings.Join(s, "/")`. -/
def joinSegs (xs : List (List Char)) : List Char := List.intercalate ['/'] xs

/-- `truncate` from `cluster.go`: truncate s to l length by replacing the end
of s with -suffix. -/
def truncate (l : Nat) (s suffix : List Char) : List Char :=
  if l ≥ s.length then s
  else if l ≤ suffix.length then suffix.take (min l suffix.length)
  else s.take (l - suffix.length - 1) ++ ['-'] ++ suffix

/-- The `for n := len(s)-1; n >= 0; n--` loop of `Hashname`, with the slice
mutation made explicit: `preRev` is the reversed not-yet-visited prefix of the
slice, `post` the already-visited suffix.  Returns the final slice contents and
the early-returned string, `none` when the loop ran to completion.  `count` is
the (constant) `len(s)` of the source. -/
def hashnameLoop (l count : Nat) (h6 : List Char) :
    List (List Char) → List (List Char) → List (List Char) × Option (List Char)
  | [], post => (post, none)
  | x :: preRev, post =>
    let x' := truncate (l / count) x h6
    let segs := preRev.reverse ++ x' :: post
    let r := joinSegs segs
    if r.length < l then (segs, some r) else hashnameLoop l count h6 preRev (x' :: post)

/-- `Hashname` from `cluster.go`, returning both the final contents of the
caller-supplied slice `s` (which the source mutates in place) and the returned
string.  The Go `if l > len(r)` tests are `r.length < l`. -/
def HashnameFull (l : Nat) (s : List (List Char)) : List (List Char) × List Char :=
  let r := joinSegs s
  if r.length < l then (s, r)
  else
    let hash := sha256hex r
    match hashnameLoop l s.length (hash.take shorthash) s.reverse [] with
    | (segs, some out) => (segs, out)
    | (segs, none) => (segs, hash.take (min hash.length l))

/-- The string returned by `Hashname`. -/
def Hashname (l : Nat) (s : List (List Char)) : List Char := (HashnameFull l s).2

/-! ### Clustername (`cluster.go` lines 28-50) -/

/-- Modelled from the spec: optional health-check policy of a Service
(timeout, interval, thresholds, path); the `dag.HealthCheck` type is not part
of the shown source. -/
structure HealthCheck where
  TimeoutSeconds : Nat
  IntervalSeconds : Nat
  UnhealthyThresholdCount : Nat
  HealthyThresholdCount : Nat
  Path : String
deriving DecidableEq

/-- Modelled from the spec: a Service is a namespace-qualified name, port,
protocol, load-balancer strategy and optional health-check policy; the
`dag.Service` type is not part of the shown source. -/
structure Service where
  Namespace : String
  Name : String
  Port : Nat
  Protocol : String
  LoadBalancerStrategy : String
  HealthCheck : Option HealthCheck
deriving DecidableEq

/-- The `buf` identity string assembled by `Clustername`: load-balancer
strategy, then, when a health check is configured, its non-zero timeout and
interval as duration strings, its non-zero threshold counts, and its path. -/
def clusterIdentity (service : Service) : List Char :=
  let buf := service.LoadBalancerStrategy.data
  match service.HealthCheck with
  | none => buf
  | some hc =>
    let buf := if hc.TimeoutSeconds > 0 then buf ++ durationChars hc.TimeoutSeconds else buf
    let buf := if hc.IntervalSeconds > 0 then buf ++ durationChars hc.IntervalSeconds else buf
    let buf := if hc.UnhealthyThresholdCount > 0 then buf ++ itoa hc.UnhealthyThresholdCount else buf
    let buf := if hc.HealthyThresholdCount > 0 then buf ++ itoa hc.HealthyThresholdCount else buf
    buf ++ hc.Path.data

/-- The four segments `Clustername` passes to `Hashname`: namespace, name,
port, and the first 5 bytes of the SHA-1 of the identity string as hex. -/
def clusterSegs (service : Service) : List (List Char) :=
  [service.Namespace.data, service.Name.data, itoa service.Port,
   hexOfBytes ((sha1Bytes (strBytes (clusterIdentity service))).take 5)]

/-- `Clustername` from `cluster.go`: hash of the strategy/health-check identity
string, first 5 bytes rendered as hex, bounded-name of
namespace/name/port/hash. -/
def Clustername (service : Service) : List Char :=
  Hashname 60 (clusterSegs service)

/-! ### Spec-side description of the truncation algorithm

These definitions follow the words of the specification's description of
`GenerateBoundedName` (amended at the two boundary cases), to be compared with
the source-derived `Hashname` above: the loop is written as the spec describes
it, iterating an index from the last segment to the first over the full segment
list. -/

/-- The spec's description of one segment truncation: leave the segment alone
when it is no longer than the budget, use the suffix-only form when the budget
is at most the suffix length, otherwise replace the tail with "-suffix" within
the budget. -/
def truncateSpec (budget : Nat) (s h6 : List Char) : List Char :=
  if s.length ≤ budget then s
  else if budget ≤ h6.length then h6.take budget
  else s.take (budget - h6.length - 1) ++ ['-'] ++ h6

/-- The spec's description of the truncation loop: process index k-1, then
k-2, ..., re-joining and re-checking the bound after each truncation and
stopping as soon as it is met. -/
def hashnameSpecLoop (l budget : Nat) (h6 : List Char) :
    List (List Char) → Nat → List (List Char) × Option (List Char)
  | segs, 0 => (segs, none)
  | segs, k + 1 =>
    let segs' := segs.set k (truncateSpec budget (segs.getD k []) h6)
    let r := joinSegs segs'
    if r.length < l then (segs', some r) else hashnameSpecLoop l budget h6 segs' k

/-- The spec's description of `GenerateBoundedName`: under the bound return the
join unchanged; otherwise compute one hash of the full joined string up front,
iterate segments from last to first with budget `maxLength / segmentCount`, and
if every segment has been truncated and the bound is still exceeded collapse to
the hash truncated to `maxLength`. -/
def HashnameSpecFull (l : Nat) (s : List (List Char)) : List (List Char) × List Char :=
  let r := joinSegs s
  if r.length < l then (s, r)
  else
    let hash := sha256hex r
    match hashnameSpecLoop l (l / s.length) (hash.take shorthash) s s.length with
    | (segs, some out) => (segs, out)
    | (segs, none) => (segs, hash.take l)

/-- The string produced by the spec's description. -/
def HashnameSpec (l : Nat) (s : List (List Char)) : List Char := (HashnameSpecFull l s).2

/-! ## Part 2: the ingress processor (`internal/dag`, ingress processor file)

The DAG-side types quote the spec's data model for the parts of the `dag`
package that are not in the shown source; the processor functions are
translated from the shown `computeSecureVirtualhosts` / `computeIngresses` /
`computeIngressRule` / `route` / `rulesFromSpec` / `httppaths` source.
Annotation-derived values (`annotation.TLSRequired`, `annotation.HTTPAllowed`,
`annotation.WebsocketRoutes`, resolved minimum TLS version, timeout and retry
policies) are capabilities of an external collaborator and are modelled as
fields of the ingress. -/

/-- A namespace-qualified name (`types.NamespacedName`). -/
structure NamespacedName where
  Namespace : String
  Name : String
deriving DecidableEq

/-- Modelled from the spec: namespace-qualified TLS material that already
passed validation; the `dag.Secret` type is not part of the shown source. -/
structure Secret where
  Namespace : String
  Name : String
deriving DecidableEq

/-- Modelled from the spec: timeout policy derived from ingress annotations;
the `dag.TimeoutPolicy` type is not part of the shown source. -/
structure TimeoutPolicy where
  Timeout : Int
deriving DecidableEq

/-- Modelled from the spec: retry policy derived from ingress annotations;
the `dag.RetryPolicy` type is not part of the shown source. -/
structure RetryPolicy where
  RetryOn : String
  NumRetries : Nat
  PerTryTimeout : Int
deriving DecidableEq

/-- A path-match condition is exactly one of the two variants built by
`route`: `&PrefixMatchCondition{Prefix: path}` or
`&RegexMatchCondition{Regex: path}`. -/
inductive MatchCondition where
  | PrefixMatchCondition : String → MatchCondition
  | RegexMatchCondition : String → MatchCondition
deriving DecidableEq

/-- One upstream target of a Route (`dag.Cluster`): upstream Service plus
transport protocol. -/
structure Cluster where
  Upstream : Service
  Protocol : String
deriving DecidableEq

/-- `dag.Route` as populated by `route`. -/
structure Route where
  PathMatchCondition : MatchCondition
  HTTPSUpgrade : Bool
  Websocket : Bool
  TimeoutPolicy : TimeoutPolicy
  RetryPolicy : RetryPolicy
  Clusters : List Cluster
deriving DecidableEq

/-- Modelled from the spec: a plaintext virtual host owns its hostname and an
ordered collection of Routes. -/
structure VirtualHost where
  Name : String
  routes : List Route
deriving DecidableEq

/-- Modelled from the spec: a secure virtual host additionally carries the
resolved TLS Secret and a minimum TLS version. -/
structure SecureVirtualHost where
  Name : String
  Secret : Option Secret
  MinTLSVersion : String
  routes : List Route
deriving DecidableEq

/-- `v1beta1.IngressTLS`: a secret name and the hosts it covers. -/
structure IngressTLS where
  SecretName : String
  Hosts : List String
deriving DecidableEq

/-- `v1beta1.IngressBackend`. -/
structure IngressBackend where
  ServiceName : String
  ServicePort : Nat
deriving DecidableEq

/-- `v1beta1.HTTPIngressPath`. -/
structure HTTPIngressPath where
  Path : String
  Backend : IngressBackend
deriving DecidableEq

/-- `v1beta1.HTTPIngressRuleValue`. -/
structure HTTPIngressRuleValue where
  Paths : List HTTPIngressPath
deriving DecidableEq

/-- `v1beta1.IngressRule`: optional host plus optional HTTP path list. -/
structure IngressRule where
  Host : String
  HTTP : Option HTTPIngressRuleValue
deriving DecidableEq

/-- `v1beta1.IngressSpec`. -/
structure IngressSpec where
  TLS : List IngressTLS
  Rules : List IngressRule
  Backend : Option IngressBackend
deriving DecidableEq

/-- A Kubernetes ingress resource together with its annotation-derived
capabilities (modelled from the spec: `TLSRequired`, `HTTPAllowed`,
`WebsocketRoutes`, resolved minimum TLS version, timeout and retry policy are
produced by the external annotation collaborator). -/
structure Ingress where
  Namespace : String
  Name : String
  Spec : IngressSpec
  tlsRequired : Bool
  httpAllowed : Bool
  websocketRoutes : List String
  minTLSVersion : String
  timeoutPolicy : TimeoutPolicy
  retryPolicy : RetryPolicy

/-- Modelled from the spec: the Resource Source capabilities consumed by the
core.  `LookupSecret` bundles the lookup with the `validSecret` validator, so
`none` covers both lookup and validation failure. -/
structure Source where
  ingresses : List Ingress
  LookupSecret : NamespacedName → Option Secret
  LookupService : NamespacedName → Nat → Option Service
  DelegationPermitted : NamespacedName → String → Bool

/-- A structured diagnostic as recorded by the processor's error paths:
resource identity, namespace, attempted secret name and message. -/
structure Diagnostic where
  Name : String
  Namespace : String
  Secret : NamespacedName
  Message : String
deriving DecidableEq

/-- The Builder-owned graph under construction: both virtual-host maps plus the
recorded diagnostics.  The maps are association lists keyed by hostname. -/
structure BuilderState where
  virtualhosts : List (String × VirtualHost)
  securevirtualhosts : List (String × SecureVirtualHost)
  diagnostics : List Diagnostic

/-- The empty graph at the start of a Builder run. -/
def emptyBuilderState : BuilderState := ⟨[], [], []⟩

/-- Association-list lookup. -/
def assocFind (k : String) : List (String × α) → Option α
  | [] => none
  | (k', v) :: rest => if k' = k then some v else assocFind k rest

/-- Get-or-create update of an association list: apply f to the entry for k,
creating it from the default d first when absent (this is the shape of the
Builder's lazy `lookupVirtualHost` / `lookupSecureVirtualHost` accessors
followed by a mutation through the returned pointer). -/
def assocUpsert (k : String) (d : α) (f : α → α) : List (String × α) → List (String × α)
  | [] => [(k, f d)]
  | (k', v) :: rest => if k' = k then (k', f v) :: rest else (k', v) :: assocUpsert k d f rest

/-- Update-if-present of an association list (never creates an entry). -/
def assocAdjust (k : String) (f : α → α) : List (String × α) → List (String × α)
  | [] => []
  | (k', v) :: rest => if k' = k then (k', f v) :: rest else (k', v) :: assocAdjust k f rest

/-- Modelled from the spec: `k8s.NamespacedNameFrom` with
`k8s.DefaultNamespace(ing.GetNamespace())` — the secret's own namespace
defaults to the ingress's namespace when the name is not qualified. -/
def NamespacedNameFrom (s : String) (defaultNamespace : String) : NamespacedName :=
  match s.data.splitOn '/' with
  | [ns, n] => ⟨String.mk ns, String.mk n⟩
  | _ => ⟨defaultNamespace, s⟩

/-! ### Phase A: `computeSecureVirtualhosts` -/

/-- The inner `for _, host := range tls.Hosts` loop: populate each host's
SecureVirtualHost with the resolved secret and minimum TLS version through the
get-or-create accessor. -/
def addSecureHosts (sec : Secret) (minver : String) :
    List String → List (String × SecureVirtualHost) → List (String × SecureVirtualHost)
  | [], m => m
  | h :: hs, m =>
    addSecureHosts sec minver hs
      (assocUpsert h ⟨h, none, "", []⟩
        (fun sv => { sv with Secret := some sec, MinTLSVersion := minver })
        m)

/-- Processing of one TLS block of one ingress: secret lookup (with validator),
then the delegation check, each failure recording a diagnostic and skipping
just this block. -/
def processTLS (src : Source) (ing : Ingress) (tls : IngressTLS) (st : BuilderState) :
    BuilderState :=
  let secretName := NamespacedNameFrom tls.SecretName ing.Namespace
  match src.LookupSecret secretName with
  | none =>
    { st with diagnostics :=
        (st.diagnostics ++ [⟨ing.Name, ing.Namespace, secretName, "unresolved secret reference"⟩]) }
  | some sec =>
    if src.DelegationPermitted secretName ing.Namespace then
      { st with securevirtualhosts :=
          (addSecureHosts sec ing.minTLSVersion tls.Hosts st.securevirtualhosts) }
    else
      { st with diagnostics :=
          (st.diagnostics ++
            [⟨ing.Name, ing.Namespace, secretName, "certificate delegation not permitted"⟩]) }

/-- The `for _, tls := range ing.Spec.TLS` loop. -/
def processTLSList (src : Source) (ing : Ingress) :
    List IngressTLS → BuilderState → BuilderState
  | [], st => st
  | t :: ts, st => processTLSList src ing ts (processTLS src ing t st)

/-- The `for _, ing := range ... .ingresses` loop of Phase A. -/
def processIngressesA (src : Source) : List Ingress → BuilderState → BuilderState
  | [], st => st
  | i :: is, st => processIngressesA src is (processTLSList src i i.Spec.TLS st)

/-- `computeSecureVirtualhosts`. -/
def computeSecureVirtualhosts (src : Source) (st : BuilderState) : BuilderState :=
  processIngressesA src src.ingresses st

/-! ### Phase B: `computeIngresses` -/

/-- `stringOrDefault`. -/
def stringOrDefault (s def_ : String) : String := if s = "" then def_ else s

/-- `httppaths`: the rule's HTTP paths, empty when the optional
`IngressRuleValue.HTTP` is absent. -/
def httppaths (rule : IngressRule) : List HTTPIngressPath :=
  match rule.HTTP with
  | none => []
  | some v => v.Paths

/-- `defaultBackendRule`: a synthetic rule with a single empty path pointing at
the default backend. -/
def defaultBackendRule (be : IngressBackend) : IngressRule :=
  { Host := "",
    HTTP := some { Paths := [{ Path := "", Backend := ⟨be.ServiceName, be.ServicePort⟩ }] } }

/-- `rulesFromSpec`: the declared rules plus, when a default backend is
present, the synthetic rule appended at the end. -/
def rulesFromSpec (spec : IngressSpec) : List IngressRule :=
  match spec.Backend with
  | none => spec.Rules
  | some be => spec.Rules ++ [defaultBackendRule be]

/-- `route`: builds the dag.Route for one path, picking the Regex variant
exactly when the path contains one of the characters of `"^+*[]%"`
(`strings.ContainsAny`). -/
def route (ingress : Ingress) (path : String) (service : Service) : Route :=
  let r : Route :=
    { PathMatchCondition := MatchCondition.PrefixMatchCondition path
      HTTPSUpgrade := ingress.tlsRequired
      Websocket := ingress.websocketRoutes.contains path
      TimeoutPolicy := ingress.timeoutPolicy
      RetryPolicy := ingress.retryPolicy
      Clusters := [{ Upstream := service, Protocol := service.Protocol }] }
  if path.data.any (fun c => "^+*[]%".data.contains c) then
    { r with PathMatchCondition := MatchCondition.RegexMatchCondition path }
  else
    r

/-- The plaintext attachment of `computeIngressRule`:
`if annotation.TLSRequired(ing) || annotation.HTTPAllowed(ing)` then
`p.builder.lookupVirtualHost(host).addRoute(r)`. -/
def attachPlain (enabled : Bool) (host : String) (r : Route) (st : BuilderState) :
    BuilderState :=
  if enabled then
    { st with virtualhosts :=
        (assocUpsert host ⟨host, []⟩ (fun vh => { vh with routes := vh.routes ++ [r] })
          st.virtualhosts) }
  else st

/-- The secure attachment of `computeIngressRule`:
`svh, ok := p.builder.securevirtualhosts[host]; if ok && host != "*" { svh.addRoute(r) }`. -/
def attachSecure (host : String) (r : Route) (st : BuilderState) : BuilderState :=
  match assocFind host st.securevirtualhosts with
  | none => st
  | some _ =>
    if host = "*" then st
    else
      { st with securevirtualhosts :=
          (assocAdjust host (fun sv => { sv with routes := sv.routes ++ [r] })
            st.securevirtualhosts) }

/-- The body of the `for _, httppath := range httppaths(rule)` loop: resolve
the service (skipping this path on failure), build the Route, attach it to the
plaintext virtual host when TLS-upgrade or plaintext HTTP is enabled, and to
the secure virtual host when one already exists for this exact non-default
host. -/
def processOnePath (src : Source) (ing : Ingress) (host : String)
    (httppath : HTTPIngressPath) (st : BuilderState) : BuilderState :=
  let path := stringOrDefault httppath.Path "/"
  let be := httppath.Backend
  match src.LookupService ⟨ing.Namespace, be.ServiceName⟩ be.ServicePort with
  | none => st
  | some s =>
    let r := route ing path s
    attachSecure host r (attachPlain (ing.tlsRequired || ing.httpAllowed) host r st)

/-- The `for _, httppath := range httppaths(rule)` loop. -/
def processPaths (src : Source) (ing : Ingress) (host : String) :
    List HTTPIngressPath → BuilderState → BuilderState
  | [], st => st
  | hp :: hps, st => processPaths src ing host hps (processOnePath src ing host hp st)

/-- `computeIngressRule`: reject wildcard hosts outright, rewrite the blank
host to the default host "*", then process each path. -/
def computeIngressRule (src : Source) (ing : Ingress) (rule : IngressRule)
    (st : BuilderState) : BuilderState :=
  let host := rule.Host
  if host.data.contains '*' then st
  else
    let host := if host = "" then "*" else host
    processPaths src ing host (httppaths rule) st

/-- The `for _, rule := range rules` loop. -/
def processRules (src : Source) (ing : Ingress) :
    List IngressRule → BuilderState → BuilderState
  | [], st => st
  | r :: rs, st => processRules src ing rs (computeIngressRule src ing r st)

/-- Processing of one ingress in Phase B. -/
def computeIngress (src : Source) (ing : Ingress) (st : BuilderState) : BuilderState :=
  processRules src ing (rulesFromSpec ing.Spec) st

/-- The `for _, ing := range ... .ingresses` loop of Phase B. -/
def processIngressesB (src : Source) : List Ingress → BuilderState → BuilderState
  | [], st => st
  | i :: is, st => processIngressesB src is (computeIngress src i st)

/-- `computeIngresses`. -/
def computeIngresses (src : Source) (st : BuilderState) : BuilderState :=
  processIngressesB src src.ingresses st

/-- `IngressProcessor.Run`: Phase A before Phase B. -/
def IngressProcessorRun (src : Source) (st : BuilderState) : BuilderState :=
  computeIngresses src (computeSecureVirtualhosts src st)

/-! ### Observations on the builder state -/

/-- The routes of the plaintext virtual host for a hostname ([] when absent). -/
def vhRoutes (h : String) (st : BuilderState) : List Route :=
  match assocFind h st.virtualhosts with
  | none => []
  | some vh => vh.routes

/-- The routes of the secure virtual host for a hostname ([] when absent). -/
def svhRoutes (h : String) (st : BuilderState) : List Route :=
  match assocFind h st.securevirtualhosts with
  | none => []
  | some sv => sv.routes

/-- Whether a secure virtual host entry exists for a hostname. -/
def hasSVH (h : String) (st : BuilderState) : Bool :=
  (assocFind h st.securevirtualhosts).isSome

/-- Whether a plaintext virtual host entry exists for a hostname. -/
def hasVH (h : String) (st : BuilderState) : Bool :=
  (assocFind h st.virtualhosts).isSome

/-- Whether one TLS block passes both Phase A checks: the secret resolves
(lookup plus validation) and cross-namespace delegation is permitted. -/
def tlsBlockAccepted (src : Source) (ing : Ingress) (tls : IngressTLS) : Bool :=
  (src.LookupSecret (NamespacedNameFrom tls.SecretName ing.Namespace)).isSome &&
    src.DelegationPermitted (NamespacedNameFrom tls.SecretName ing.Namespace) ing.Namespace

/-- Whether Phase A creates a secure virtual host for hostname h: some ingress
declares an accepted TLS block listing h. -/
def phaseACreates (src : Source) (h : String) : Bool :=
  src.ingresses.any fun ing =>
    ing.Spec.TLS.any fun tls => tlsBlockAccepted src ing tls && tls.Hosts.contains h

/-! ## Lemmas: association lists -/

theorem assocFind_upsert (k k' : String) (d : α) (f : α → α) (m : List (String × α)) :
    assocFind k (assocUpsert k' d f m)
      = if k' = k then some (f ((assocFind k m).getD d)) else assocFind k m := by
  induction m with
  | nil =>
    by_cases h : k' = k <;> simp [assocFind, assocUpsert, h]
  | cons p rest ih =>
    obtain ⟨a, v⟩ := p
    by_cases hak : a = k'
    · subst hak
      by_cases h : a = k <;> simp [assocFind, assocUpsert, h]
    · by_cases h : a = k
      · subst h
        simp [assocFind, assocUpsert, hak, Ne.symm hak]
      · simp [assocFind, assocUpsert, hak, h, ih]

theorem assocFind_adjust (k k' : String) (f : α → α) (m : List (String × α)) :
    assocFind k (assocAdjust k' f m)
      = if k' = k then (assocFind k m).map f else assocFind k m := by
  induction m with
  | nil => by_cases h : k' = k <;> simp [assocFind, assocAdjust, h]
  | cons p rest ih =>
    obtain ⟨a, v⟩ := p
    by_cases hak : a = k'
    · subst hak
      by_cases h : a = k <;> simp [assocFind, assocAdjust, h]
    · by_cases h : a = k
      · subst h
        simp [assocFind, assocAdjust, hak, Ne.symm hak]
      · simp [assocFind, assocAdjust, hak, h, ih]

/-! ## Lemmas: Hashname -/

theorem truncate_length_le (l : Nat) (s h6 : List Char) (h : l < s.length) :
    (truncate l s h6).length ≤ l := by
  unfold truncate
  rw [if_neg (by omega)]
  by_cases hc : l ≤ h6.length
  · rw [if_pos hc]
    simp only [List.length_take]
    omega
  · rw [if_neg hc]
    simp only [List.length_append, List.length_take, List.length_cons, List.length_nil]
    omega

theorem hashnameLoop_some_length (l count : Nat) (h6 : List Char) :
    ∀ preRev post segs out,
      hashnameLoop l count h6 preRev post = (segs, some out) → out.length < l := by
  intro preRev
  induction preRev with
  | nil => intro post segs out h; simp [hashnameLoop] at h
  | cons x pr ih =>
    intro post segs out h
    rw [hashnameLoop] at h
    split at h
    · rename_i hlt
      injection h with h1 h2
      injection h2 with h2
      subst h2
      exact hlt
    · exact ih _ _ _ h

theorem HashnameFull_under (l : Nat) (s : List (List Char))
    (h : (joinSegs s).length < l) : HashnameFull l s = (s, joinSegs s) := by
  unfold HashnameFull
  rw [if_pos h]

theorem Hashname_under (l : Nat) (s : List (List Char))
    (h : (joinSegs s).length < l) : Hashname l s = joinSegs s := by
  unfold Hashname
  rw [HashnameFull_under l s h]

theorem Hashname_length_le (l : Nat) (s : List (List Char)) : (Hashname l s).length ≤ l := by
  simp only [Hashname, HashnameFull]
  split
  · exact Nat.le_of_lt ‹_›
  · split
    · rename_i segs out heq
      exact Nat.le_of_lt (hashnameLoop_some_length _ _ _ _ _ _ _ heq)
    · simp only [List.length_take]
      omega

theorem hashnameLoop_getLast (l count : Nat) (h6 : List Char) :
    ∀ preRev post, post ≠ [] →
      ((hashnameLoop l count h6 preRev post).1).getLast? = post.getLast? := by
  intro preRev
  induction preRev with
  | nil => intro post hp; simp [hashnameLoop]
  | cons x pr ih =>
    intro post hp
    rw [hashnameLoop]
    split
    · simp only
      rw [List.getLast?_append_cons]
      rw [show (truncate (l / count) x h6) :: post = [truncate (l / count) x h6] ++ post from rfl,
        List.getLast?_append_of_ne_nil _ hp]
    · exact (ih _ (by simp)).trans (by
        rw [show (truncate (l / count) x h6) :: post = [truncate (l / count) x h6] ++ post from rfl,
          List.getLast?_append_of_ne_nil _ hp])

theorem hashnameLoop_getLast_init (l count : Nat) (h6 x : List Char)
    (prRev : List (List Char)) :
    ((hashnameLoop l count h6 (x :: prRev) []).1).getLast?
      = some (truncate (l / count) x h6) := by
  rw [hashnameLoop]
  split
  · simp only
    rw [List.getLast?_append_cons]
    rfl
  · rw [hashnameLoop_getLast _ _ _ _ _ (by simp)]
    rfl

theorem HashnameFull_fst_over (l : Nat) (s : List (List Char))
    (h : ¬ (joinSegs s).length < l) :
    (HashnameFull l s).1
      = (hashnameLoop l s.length ((sha256hex (joinSegs s)).take shorthash) s.reverse []).1 := by
  simp only [HashnameFull]
  rw [if_neg h]
  rcases hl : hashnameLoop l s.length ((sha256hex (joinSegs s)).take shorthash) s.reverse []
    with ⟨segs, op⟩
  cases op <;> simp

theorem HashnameFull_mutates (l : Nat) (s₀ : List (List Char)) (x : List Char)
    (hover : ¬ (joinSegs (s₀ ++ [x])).length < l)
    (hbud : l / (s₀ ++ [x]).length < x.length) :
    (HashnameFull l (s₀ ++ [x])).1 ≠ s₀ ++ [x] := by
  intro heq
  have h1 : (HashnameFull l (s₀ ++ [x])).1.getLast?
      = some (truncate (l / (s₀ ++ [x]).length) x
          ((sha256hex (joinSegs (s₀ ++ [x]))).take shorthash)) := by
    rw [HashnameFull_fst_over _ _ hover]
    rw [show (s₀ ++ [x]).reverse = x :: s₀.reverse by simp]
    rw [hashnameLoop_getLast_init]
  rw [heq] at h1
  have h2 : (s₀ ++ [x]).getLast? = some x := by simp
  rw [h2] at h1
  injection h1 with h1
  have h3 := truncate_length_le (l / (s₀ ++ [x]).length) x
    ((sha256hex (joinSegs (s₀ ++ [x]))).take shorthash) hbud
  rw [← h1] at h3
  omega

theorem getD_append_len (A : List α) (x : α) (B : List α) (d : α) :
    (A ++ x :: B).getD A.length d = x := by
  induction A with
  | nil => rfl
  | cons a A ih => simpa using ih

theorem set_append_len (A : List α) (x y : α) (B : List α) :
    (A ++ x :: B).set A.length y = A ++ y :: B := by
  induction A with
  | nil => rfl
  | cons a A ih => simp [List.set, ih]

theorem truncate_eq_truncateSpec (l : Nat) (s h6 : List Char) :
    truncate l s h6 = truncateSpec l s h6 := by
  unfold truncate truncateSpec
  by_cases h1 : s.length ≤ l
  · rw [if_pos (show l ≥ s.length from h1), if_pos h1]
  · rw [if_neg (show ¬ l ≥ s.length from h1), if_neg h1]
    by_cases h2 : l ≤ h6.length
    · rw [if_pos h2, if_pos h2, Nat.min_eq_left h2]
    · rw [if_neg h2, if_neg h2]

theorem take_min_length_left (xs : List α) (l : Nat) :
    xs.take (min xs.length l) = xs.take l := by
  rcases Nat.le_total xs.length l with h | h
  · rw [Nat.min_eq_left h, List.take_length, List.take_of_length_le h]
  · rw [Nat.min_eq_right h]

theorem hashnameLoop_eq_specLoop (l count : Nat) (h6 : List Char) :
    ∀ preRev post,
      hashnameLoop l count h6 preRev post
        = hashnameSpecLoop l (l / count) h6 (preRev.reverse ++ post) preRev.length := by
  intro preRev
  induction preRev with
  | nil => intro post; simp [hashnameLoop, hashnameSpecLoop]
  | cons x pr ih =>
    intro post
    rw [hashnameLoop]
    rw [show (x :: pr).length = pr.length + 1 from rfl]
    rw [show (x :: pr).reverse ++ post = pr.reverse ++ x :: post by simp]
    rw [hashnameSpecLoop]
    rw [show pr.length = pr.reverse.length from (List.length_reverse _).symm]
    rw [getD_append_len, set_append_len, ← truncate_eq_truncateSpec]
    split
    · rfl
    · rw [ih (truncate (l / count) x h6 :: post)]
      rw [show pr.length = pr.reverse.length from (List.length_reverse _).symm]

theorem HashnameFull_eq_spec (l : Nat) (s : List (List Char)) :
    HashnameFull l s = HashnameSpecFull l s := by
  simp only [HashnameFull, HashnameSpecFull]
  split
  · rfl
  · rw [hashnameLoop_eq_specLoop]
    simp only [List.reverse_reverse, List.append_nil, List.length_reverse]
    rcases hsl : hashnameSpecLoop l (l / s.length)
        ((sha256hex (joinSegs s)).take shorthash) s s.length with ⟨segs, op⟩
    cases op
    · simp only
      rw [take_min_length_left]
    · rfl

/-! ## Lemmas: Phase A -/

theorem assocFind_addSecureHosts (sec : Secret) (mv : String) :
    ∀ (hs : List String) (m : List (String × SecureVirtualHost)) (h : String),
      (assocFind h (addSecureHosts sec mv hs m)).isSome
        = (hs.contains h || (assocFind h m).isSome) := by
  intro hs
  induction hs with
  | nil => intro m h; simp [addSecureHosts]
  | cons a t ih =>
    intro m h
    rw [addSecureHosts, ih, assocFind_upsert]
    by_cases hah : a = h
    · subst hah
      simp
    · simp [hah, List.contains_cons, Ne.symm hah]

theorem hasSVH_processTLS (src : Source) (ing : Ingress) (tls : IngressTLS)
    (st : BuilderState) (h : String) :
    hasSVH h (processTLS src ing tls st)
      = ((tlsBlockAccepted src ing tls && tls.Hosts.contains h) || hasSVH h st) := by
  unfold processTLS tlsBlockAccepted hasSVH
  cases hsec : src.LookupSecret (NamespacedNameFrom tls.SecretName ing.Namespace) with
  | none => simp [hsec]
  | some sec =>
    by_cases hdel :
        src.DelegationPermitted (NamespacedNameFrom tls.SecretName ing.Namespace) ing.Namespace
    · simp [hsec, hdel, assocFind_addSecureHosts]
    · simp [hsec, hdel]

theorem hasSVH_processTLSList (src : Source) (ing : Ingress) :
    ∀ (ts : List IngressTLS) (st : BuilderState) (h : String),
      hasSVH h (processTLSList src ing ts st)
        = (ts.any (fun tls => tlsBlockAccepted src ing tls && tls.Hosts.contains h)
            || hasSVH h st) := by
  intro ts
  induction ts with
  | nil => intro st h; simp [processTLSList]
  | cons t ts ih =>
    intro st h
    rw [processTLSList, ih, hasSVH_processTLS]
    simp [Bool.or_assoc, Bool.or_comm, Bool.or_left_comm]

theorem hasSVH_processIngressesA (src : Source) :
    ∀ (is : List Ingress) (st : BuilderState) (h : String),
      hasSVH h (processIngressesA src is st)
        = (is.any (fun ing => ing.Spec.TLS.any fun tls =>
              tlsBlockAccepted src ing tls && tls.Hosts.contains h)
            || hasSVH h st) := by
  intro is
  induction is with
  | nil => intro st h; simp [processIngressesA]
  | cons i is ih =>
    intro st h
    rw [processIngressesA, ih, hasSVH_processTLSList]
    simp [Bool.or_assoc, Bool.or_comm, Bool.or_left_comm]

theorem hasSVH_phaseA (src : Source) (h : String) :
    hasSVH h (computeSecureVirtualhosts src emptyBuilderState) = phaseACreates src h := by
  unfold computeSecureVirtualhosts phaseACreates
  rw [hasSVH_processIngressesA]
  simp [hasSVH, emptyBuilderState, assocFind]

theorem processTLS_svh_congr (src : Source) (ing : Ingress) (tls : IngressTLS)
    (st1 st2 : BuilderState) (h : st1.securevirtualhosts = st2.securevirtualhosts) :
    (processTLS src ing tls st1).securevirtualhosts
      = (processTLS src ing tls st2).securevirtualhosts := by
  unfold processTLS
  cases hsec : src.LookupSecret (NamespacedNameFrom tls.SecretName ing.Namespace) with
  | none => simpa [hsec] using h
  | some sec =>
    by_cases hdel :
        src.DelegationPermitted (NamespacedNameFrom tls.SecretName ing.Namespace) ing.Namespace
    · simp [hsec, hdel, h]
    · simpa [hsec, hdel] using h

theorem processTLSList_svh_congr (src : Source) (ing : Ingress) :
    ∀ (ts : List IngressTLS) (st1 st2 : BuilderState),
      st1.securevirtualhosts = st2.securevirtualhosts →
      (processTLSList src ing ts st1).securevirtualhosts
        = (processTLSList src ing ts st2).securevirtualhosts := by
  intro ts
  induction ts with
  | nil => intro st1 st2 h; simpa [processTLSList] using h
  | cons t ts ih =>
    intro st1 st2 h
    rw [processTLSList, processTLSList]
    exact ih _ _ (processTLS_svh_congr src ing t _ _ h)

/-! ## Lemmas: Phase B -/

theorem attachPlain_svh (f : Bool) (host : String) (r : Route) (st : BuilderState) :
    (attachPlain f host r st).securevirtualhosts = st.securevirtualhosts := by
  unfold attachPlain
  split <;> rfl

theorem attachSecure_vh (host : String) (r : Route) (st : BuilderState) :
    (attachSecure host r st).virtualhosts = st.virtualhosts := by
  unfold attachSecure
  split
  · rfl
  · split <;> rfl

theorem hasSVH_attachPlain (f : Bool) (host : String) (r : Route) (st : BuilderState)
    (h : String) : hasSVH h (attachPlain f host r st) = hasSVH h st := by
  simp [hasSVH, attachPlain_svh]

theorem svhRoutes_attachPlain (f : Bool) (host : String) (r : Route) (st : BuilderState)
    (h : String) : svhRoutes h (attachPlain f host r st) = svhRoutes h st := by
  simp [svhRoutes, attachPlain_svh]

theorem vhRoutes_attachSecure (host : String) (r : Route) (st : BuilderState) (h : String) :
    vhRoutes h (attachSecure host r st) = vhRoutes h st := by
  simp [vhRoutes, attachSecure_vh]

theorem hasSVH_attachSecure (host : String) (r : Route) (st : BuilderState) (h : String) :
    hasSVH h (attachSecure host r st) = hasSVH h st := by
  unfold attachSecure hasSVH
  split
  · rfl
  · split
    · rfl
    · simp only
      rw [assocFind_adjust]
      by_cases hh : host = h
      · rw [if_pos hh]
        simp
      · rw [if_neg hh]

theorem attachSecure_absent (host : String) (r : Route) (st : BuilderState)
    (h : hasSVH host st = false) : attachSecure host r st = st := by
  unfold attachSecure
  unfold hasSVH at h
  cases hf : assocFind host st.securevirtualhosts with
  | none => rfl
  | some sv => rw [hf] at h; simp at h

theorem attachSecure_star (r : Route) (st : BuilderState) :
    attachSecure "*" r st = st := by
  unfold attachSecure
  split
  · rfl
  · rw [if_pos rfl]

theorem svhRoutes_attachSecure_present (host : String) (r : Route) (st : BuilderState)
    (hne : host ≠ "*") (hp : hasSVH host st = true) :
    svhRoutes host (attachSecure host r st) = svhRoutes host st ++ [r] := by
  unfold attachSecure svhRoutes
  unfold hasSVH at hp
  cases hf : assocFind host st.securevirtualhosts with
  | none => rw [hf] at hp; simp at hp
  | some sv =>
    rw [if_neg hne]
    simp only
    rw [assocFind_adjust, if_pos rfl, hf]
    rfl

theorem vhRoutes_attachPlain_true (host : String) (r : Route) (st : BuilderState) :
    vhRoutes host (attachPlain true host r st) = vhRoutes host st ++ [r] := by
  unfold attachPlain vhRoutes
  rw [if_pos rfl]
  simp only
  rw [assocFind_upsert, if_pos rfl]
  cases hf : assocFind host st.virtualhosts <;> simp

theorem self_ne_append_singleton (xs : List α) (a : α) : xs ≠ xs ++ [a] := by
  intro h
  have := congrArg List.length h
  simp at this

theorem hasVH_attachPlain (f : Bool) (host : String) (r : Route) (st : BuilderState)
    (h : String) : hasVH h (attachPlain f host r st) = true → hasVH h st = true ∨ h = host := by
  unfold attachPlain hasVH
  split
  · simp only
    rw [assocFind_upsert]
    by_cases hh : host = h
    · intro _; right; exact hh.symm
    · rw [if_neg hh]
      intro hsome; left; exact hsome
  · intro hsome; left; exact hsome

theorem hasVH_attachSecure (host : String) (r : Route) (st : BuilderState) (h : String) :
    hasVH h (attachSecure host r st) = hasVH h st := by
  simp [hasVH, attachSecure_vh]

theorem hasSVH_processOnePath (src : Source) (ing : Ingress) (host : String)
    (hp : HTTPIngressPath) (st : BuilderState) (h : String) :
    hasSVH h (processOnePath src ing host hp st) = hasSVH h st := by
  simp only [processOnePath]
  cases hls : src.LookupService ⟨ing.Namespace, hp.Backend.ServiceName⟩ hp.Backend.ServicePort with
  | none => rfl
  | some s => rw [hasSVH_attachSecure, hasSVH_attachPlain]

theorem hasVH_processOnePath (src : Source) (ing : Ingress) (host : String)
    (hp : HTTPIngressPath) (st : BuilderState) (h : String) :
    hasVH h (processOnePath src ing host hp st) = true → hasVH h st = true ∨ h = host := by
  simp only [processOnePath]
  cases hls : src.LookupService ⟨ing.Namespace, hp.Backend.ServiceName⟩ hp.Backend.ServicePort with
  | none => intro hsome; left; exact hsome
  | some s =>
    rw [hasVH_attachSecure]
    exact hasVH_attachPlain _ _ _ _ _

theorem hasSVH_processPaths (src : Source) (ing : Ingress) (host : String) :
    ∀ (hps : List HTTPIngressPath) (st : BuilderState) (h : String),
      hasSVH h (processPaths src ing host hps st) = hasSVH h st := by
  intro hps
  induction hps with
  | nil => intro st h; rfl
  | cons p ps ih =>
    intro st h
    rw [processPaths, ih, hasSVH_processOnePath]

theorem hasVH_processPaths (src : Source) (ing : Ingress) (host : String) :
    ∀ (hps : List HTTPIngressPath) (st : BuilderState) (h : String),
      hasVH h (processPaths src ing host hps st) = true → hasVH h st = true ∨ h = host := by
  intro hps
  induction hps with
  | nil => intro st h hsome; left; exact hsome
  | cons p ps ih =>
    intro st h hsome
    rcases ih _ _ hsome with h1 | h1
    · exact hasVH_processOnePath _ _ _ _ _ _ h1
    · right; exact h1

theorem hasSVH_computeIngressRule (src : Source) (ing : Ingress) (rule : IngressRule)
    (st : BuilderState) (h : String) :
    hasSVH h (computeIngressRule src ing rule st) = hasSVH h st := by
  simp only [computeIngressRule]
  split
  · rfl
  · rw [hasSVH_processPaths]

theorem hasVH_computeIngressRule (src : Source) (ing : Ingress) (rule : IngressRule)
    (st : BuilderState) (h : String) :
    hasVH h (computeIngressRule src ing rule st) = true →
      hasVH h st = true ∨ h.data.contains '*' = false ∨ h = "*" := by
  simp only [computeIngressRule]
  split
  · intro hsome; left; exact hsome
  · rename_i hw
    intro hsome
    rcases hasVH_processPaths src ing _ _ _ _ hsome with h1 | h1
    · left; exact h1
    · right
      by_cases hblank : rule.Host = ""
      · rw [hblank] at h1
        simp only [if_pos] at h1
        right; exact h1
      · rw [if_neg hblank] at h1
        left
        rw [h1]
        exact Bool.of_not_eq_true hw

/-! ## Claims -/

/-- Claim C2 (corrected): the claim reads "if the joined length is at most L
the join is returned unchanged"; the source tests `l > len(r)` strictly, so at
joined length exactly L the hash path is taken instead.  Amended: if the
joined length is strictly below L, `Hashname` returns the join unchanged; in
every case the returned string's length is at most L (no exception needed for
small L in this model). -/
theorem contour_C2_amended (l : Nat) (s : List (List Char)) :
    ((joinSegs s).length < l → Hashname l s = joinSegs s)
    ∧ (Hashname l s).length ≤ l :=
  ⟨fun h => by unfold Hashname; rw [HashnameFull_under l s h], Hashname_length_le l s⟩

/-- Claim C2 counterexample: for bound 3 and single segment "abc" the joined
length (3) is at most the bound, yet `Hashname` does not return "abc" — it
falls through to the truncated hash. -/
theorem contour_C2_counterexample :
    (joinSegs ["abc".data]).length ≤ 3
    ∧ Hashname 3 ["abc".data] ≠ joinSegs ["abc".data] := by
  constructor
  · decide
  · decide

/-- Claim C2 witness: a concrete under-bound instance of the amended theorem. -/
theorem contour_C2_witness :
    Hashname 60 ["default".data, "echo".data] = joinSegs ["default".data, "echo".data]
    ∧ (Hashname 60 ["default".data, "echo".data]).length ≤ 60 :=
  ⟨(contour_C2_amended 60 ["default".data, "echo".data]).1 (by decide),
   (contour_C2_amended 60 ["default".data, "echo".data]).2⟩

/-- Claim C5 (corrected): the claim says the suffix-only form is used exactly
when the budget is smaller than the suffix length; the source uses it whenever
the budget is at most the suffix length (`l <= len(suffix)`), so at budget
exactly 6 a too-long segment is replaced by the bare hash suffix.  Amended with
"at most" in place of "smaller than" (and "no longer than the budget" for the
leave-alone case), the spec's loop description agrees with the source: this
theorem proves the source-derived `HashnameFull` extensionally equal to
`HashnameSpecFull`, the spec's description written as an index-based
last-to-first loop. -/
theorem contour_C5_amended (l : Nat) (s : List (List Char)) :
    HashnameFull l s = HashnameSpecFull l s ∧ Hashname l s = HashnameSpec l s :=
  ⟨HashnameFull_eq_spec l s,
   by unfold Hashname HashnameSpec; rw [HashnameFull_eq_spec]⟩

/-- Claim C5 counterexample: bound 13 over two segments gives budget
13/2 = 6 = shorthash, which is not smaller than the suffix length, yet the
12-character last segment is replaced by the bare 6-character hash suffix
(the suffix-only form). -/
theorem contour_C5_counterexample :
    ¬ 13 / 2 < shorthash
    ∧ (HashnameFull 13 ["ab".data, "cdefghijklmn".data]).1
        = ["ab".data, "47bd31".data]
    ∧ "47bd31".data
        = (sha256hex (joinSegs ["ab".data, "cdefghijklmn".data])).take shorthash
    ∧ Hashname 13 ["ab".data, "cdefghijklmn".data] = "ab/47bd31".data := by
  refine ⟨by decide, by decide, by decide, by decide⟩

/-- Claim C10 (corrected): the claim says the caller-supplied slice is
observably mutated whenever the joined length is not strictly below the bound;
in fact the loop rewrites each visited element with its truncation, which
leaves the element (and hence the slice) unchanged when it already fits the
per-segment budget.  Amended: the slice is unchanged in the under-bound fast
path, and is observably mutated in the over-bound path whenever the last
segment is longer than the budget `l / len(s)`. -/
theorem contour_C10_amended (l : Nat) (s : List (List Char)) :
    ((joinSegs s).length < l → (HashnameFull l s).1 = s)
    ∧ (∀ s₀ x, s = s₀ ++ [x] → ¬ (joinSegs s).length < l → l / s.length < x.length →
        (HashnameFull l s).1 ≠ s) := by
  constructor
  · intro h
    rw [HashnameFull_under l s h]
  · rintro s₀ x rfl hover hbud
    exact HashnameFull_mutates l s₀ x hover hbud

/-- Claim C10 counterexample: bound 3 and single segment "abc": the joined
length is not strictly below the bound (the fast path is not taken), yet the
slice contents are unchanged after the call, because the segment already fits
the budget 3/1 = 3. -/
theorem contour_C10_counterexample :
    ¬ (joinSegs ["abc".data]).length < 3
    ∧ (HashnameFull 3 ["abc".data]).1 = ["abc".data] := by
  refine ⟨by decide, by decide⟩

/-- Claim C10 witness: concrete instances of both conjuncts of the amended
theorem: the fast path leaves a short slice untouched, and an over-budget last
segment is observably overwritten. -/
theorem contour_C10_witness :
    (HashnameFull 60 ["a".data]).1 = ["a".data]
    ∧ (HashnameFull 3 ["abcdefgh".data]).1 ≠ ["abcdefgh".data] :=
  ⟨(contour_C10_amended 60 ["a".data]).1 (by decide),
   (contour_C10_amended 3 ["abcdefgh".data]).2 [] "abcdefgh".data (by decide) (by decide)
     (by decide)⟩

/-- Claim C8 (confirmed): a built Route's path-match condition is the Regex
variant exactly when the path contains one of the characters of `"^+*[]%"`,
and the Prefix variant otherwise; the two cases are mutually exclusive. -/
theorem contour_C8 (ing : Ingress) (path : String) (s : Service) :
    ((route ing path s).PathMatchCondition = MatchCondition.RegexMatchCondition path
       ↔ path.data.any (fun c => "^+*[]%".data.contains c) = true)
    ∧ ((route ing path s).PathMatchCondition = MatchCondition.PrefixMatchCondition path
       ↔ path.data.any (fun c => "^+*[]%".data.contains c) = false) := by
  by_cases hc : path.data.any (fun c => "^+*[]%".data.contains c) = true
  · refine ⟨?_, ?_⟩
    · simp only [route]
      rw [if_pos hc]
      exact iff_of_true rfl hc
    · simp only [route]
      rw [if_pos hc]
      exact iff_of_false (by simp) (fun h => Bool.noConfusion (hc.symm.trans h))
  · have hc' : path.data.any (fun c => "^+*[]%".data.contains c) = false :=
      Bool.of_not_eq_true hc
    refine ⟨?_, ?_⟩
    · simp only [route]
      rw [if_neg hc]
      exact iff_of_false (by simp) hc
    · simp only [route]
      rw [if_neg hc]
      exact iff_of_true rfl hc'

theorem joinSegs_last_inj (A B C d1 d2 : List Char)
    (h : joinSegs [A, B, C, d1] = joinSegs [A, B, C, d2]) : d1 = d2 := by
  simp only [joinSegs, List.intercalate, List.intersperse] at h
  have h1 := List.append_cancel_left h
  simpa using h1

/-- Claim C9 (corrected): the claim asserts that two Services differing only in
a non-zero health-check `IntervalSeconds` always get different `Clustername`s;
the disambiguator is only the first 5 bytes of a SHA-1, and 40-bit truncated
hashes collide — intervals 371113s and 2485877s hash to the same 5 bytes, so
the names coincide.  Amended: the names differ whenever the hex disambiguators
differ and both composed names are under the 60-character bound; and two
Services with no health check that agree on namespace, name, port and strategy
always get identical names. -/
theorem contour_C9_amended (s1 s2 : Service)
    (hns : s1.Namespace = s2.Namespace) (hn : s1.Name = s2.Name) (hp : s1.Port = s2.Port) :
    ((hexOfBytes ((sha1Bytes (strBytes (clusterIdentity s1))).take 5)
        ≠ hexOfBytes ((sha1Bytes (strBytes (clusterIdentity s2))).take 5)) →
      (joinSegs (clusterSegs s1)).length < 60 →
      (joinSegs (clusterSegs s2)).length < 60 →
      Clustername s1 ≠ Clustername s2)
    ∧ (s1.LoadBalancerStrategy = s2.LoadBalancerStrategy →
        s1.HealthCheck = none → s2.HealthCheck = none →
        Clustername s1 = Clustername s2) := by
  constructor
  · intro hhex h1 h2 heq
    unfold Clustername at heq
    rw [Hashname_under _ _ h1, Hashname_under _ _ h2] at heq
    unfold clusterSegs at heq
    rw [hns, hn, hp] at heq
    exact hhex (joinSegs_last_inj _ _ _ _ _ heq)
  · intro hstrat h1 h2
    simp only [Clustername, clusterSegs, clusterIdentity, hns, hn, hp, hstrat, h1, h2]

/-- Services for the Claim C9 counterexample: identical except for the
health-check interval, whose duration strings "103h5m13s" and "690h31m17s"
share the first 5 bytes of their SHA-1 digests. -/
def c9svcA : Service :=
  ⟨"default", "kuard", 80, "", "", some ⟨0, 371113, 0, 0, ""⟩⟩

/-- Second service of the Claim C9 counterexample. -/
def c9svcB : Service :=
  ⟨"default", "kuard", 80, "", "", some ⟨0, 2485877, 0, 0, ""⟩⟩

set_option maxRecDepth 100000 in
/-- Claim C9 counterexample: two Services that agree on namespace, name, port,
strategy and every health-check field except a non-zero, distinct
`IntervalSeconds`, yet `Clustername` returns the same string for both. -/
theorem contour_C9_counterexample :
    Clustername c9svcA = Clustername c9svcB
    ∧ c9svcA.Namespace = c9svcB.Namespace
    ∧ c9svcA.Name = c9svcB.Name
    ∧ c9svcA.Port = c9svcB.Port
    ∧ c9svcA.LoadBalancerStrategy = c9svcB.LoadBalancerStrategy
    ∧ c9svcA.HealthCheck = some ⟨0, 371113, 0, 0, ""⟩
    ∧ c9svcB.HealthCheck = some ⟨0, 2485877, 0, 0, ""⟩
    ∧ (371113 : Nat) ≠ 2485877 ∧ (371113 : Nat) ≠ 0 ∧ (2485877 : Nat) ≠ 0 :=
  ⟨by decide, rfl, rfl, rfl, rfl, rfl, rfl, by decide, by decide, by decide⟩

/-- Services for the Claim C9 witness: small distinct intervals with distinct
truncated digests. -/
def c9svcC : Service := ⟨"default", "kuard", 80, "", "", some ⟨0, 1, 0, 0, ""⟩⟩

/-- Second witness service with a different interval. -/
def c9svcD : Service := ⟨"default", "kuard", 80, "", "", some ⟨0, 2, 0, 0, ""⟩⟩

/-- Witness service without a health check. -/
def c9svcE : Service := ⟨"default", "kuard", 80, "h2", "rr", none⟩

/-- Second witness service without a health check, differing in protocol. -/
def c9svcF : Service := ⟨"default", "kuard", 80, "tcp", "rr", none⟩

set_option maxRecDepth 100000 in
/-- Claim C9 witness: concrete instances of both conjuncts of the amended
theorem. -/
theorem contour_C9_witness :
    Clustername c9svcC ≠ Clustername c9svcD ∧ Clustername c9svcE = Clustername c9svcF :=
  ⟨(contour_C9_amended c9svcC c9svcD rfl rfl rfl).1 (by decide) (by decide) (by decide),
   (contour_C9_amended c9svcE c9svcF rfl rfl rfl).2 rfl rfl rfl⟩

/-- Claim C1 (confirmed): after Phase A from the empty graph, a secure virtual
host exists for exactly the hosts listed under an accepted TLS block (secret
resolved and validated, delegation permitted); Phase B's rule processing never
creates or removes secure virtual hosts; and for a rule with one resolving
path, the built Route is appended to the secure virtual host of the rule's
normalized host if and only if that host is not "*" and Phase A created an
entry for exactly that host. -/
theorem contour_C1 (src : Source) :
    (∀ h, hasSVH h (computeSecureVirtualhosts src emptyBuilderState) = phaseACreates src h)
    ∧ (∀ ing rule st h, hasSVH h (computeIngressRule src ing rule st) = hasSVH h st)
    ∧ (∀ st ing rule hp s h,
        (∀ h', hasSVH h' st = phaseACreates src h') →
        rule.Host.data.contains '*' = false →
        (if rule.Host = "" then "*" else rule.Host) = h →
        httppaths rule = [hp] →
        src.LookupService ⟨ing.Namespace, hp.Backend.ServiceName⟩ hp.Backend.ServicePort
          = some s →
        (svhRoutes h (computeIngressRule src ing rule st)
            = svhRoutes h st ++ [route ing (stringOrDefault hp.Path "/") s]
          ↔ (h ≠ "*" ∧ phaseACreates src h = true))) := by
  refine ⟨hasSVH_phaseA src, fun ing rule st h => hasSVH_computeIngressRule src ing rule st h,
    ?_⟩
  intro st ing rule hp s h hkeys hw hnorm hpaths hs
  have hred : computeIngressRule src ing rule st = processOnePath src ing h hp st := by
    simp only [computeIngressRule]
    rw [if_neg (by rw [hw]; exact Bool.noConfusion)]
    rw [hnorm, hpaths]
    rfl
  rw [hred]
  simp only [processOnePath, hs]
  cases hsv : hasSVH h st with
  | false =>
    rw [attachSecure_absent _ _ _ (by rw [hasSVH_attachPlain]; exact hsv), svhRoutes_attachPlain]
    refine iff_of_false (self_ne_append_singleton _ _) ?_
    intro hc
    have hpa := hc.2
    rw [← hkeys h, hsv] at hpa
    exact Bool.noConfusion hpa
  | true =>
    by_cases hstar : h = "*"
    · subst hstar
      rw [attachSecure_star, svhRoutes_attachPlain]
      exact iff_of_false (self_ne_append_singleton _ _) (fun hc => hc.1 rfl)
    · rw [svhRoutes_attachSecure_present h _ _ hstar (by rw [hasSVH_attachPlain]; exact hsv),
        svhRoutes_attachPlain]
      exact iff_of_true rfl ⟨hstar, by rw [← hkeys h]; exact hsv⟩

/-- Shared fixture: a timeout policy value. -/
def fixTimeout : TimeoutPolicy := ⟨0⟩

/-- Shared fixture: a retry policy value. -/
def fixRetry : RetryPolicy := ⟨"", 0, 0⟩

/-- Shared fixture: a resolvable Service. -/
def fixService : Service := ⟨"default", "echo", 80, "h2", "", none⟩

/-- Fixture ingress for the Claim C1 witness: one accepted TLS block and one
rule on the same host. -/
def c1ing : Ingress :=
  { Namespace := "default", Name := "t",
    Spec := ⟨[⟨"sec1", ["tls.example.com"]⟩],
             [⟨"tls.example.com", some ⟨[⟨"/x", ⟨"echo", 80⟩⟩]⟩⟩], none⟩,
    tlsRequired := false, httpAllowed := true, websocketRoutes := [],
    minTLSVersion := "1.2", timeoutPolicy := fixTimeout, retryPolicy := fixRetry }

/-- Fixture source for the Claim C1 witness. -/
def c1src : Source :=
  { ingresses := [c1ing],
    LookupSecret := fun n => if n = ⟨"default", "sec1"⟩ then some ⟨"default", "sec1"⟩ else none,
    LookupService := fun n p => if n = ⟨"default", "echo"⟩ ∧ p = 80 then some fixService else none,
    DelegationPermitted := fun _ _ => true }

/-- Fixture rule for the Claim C1 witness. -/
def c1rule : IngressRule := ⟨"tls.example.com", some ⟨[⟨"/x", ⟨"echo", 80⟩⟩]⟩⟩

/-- The Phase A result for the Claim C1 witness. -/
def c1stA : BuilderState := computeSecureVirtualhosts c1src emptyBuilderState

/-- Claim C1 witness: on a concrete snapshot whose Phase A accepted the TLS
block for "tls.example.com", the rule's Route is appended to that secure
virtual host. -/
theorem contour_C1_witness :
    svhRoutes "tls.example.com" (computeIngressRule c1src c1ing c1rule c1stA)
      = svhRoutes "tls.example.com" c1stA
        ++ [route c1ing (stringOrDefault "/x" "/") fixService] :=
  ((contour_C1 c1src).2.2 c1stA c1ing c1rule ⟨"/x", ⟨"echo", 80⟩⟩ fixService "tls.example.com"
    (fun h' => (contour_C1 c1src).1 h')
    (by decide) (by decide) (by decide) (by decide)).mpr ⟨by decide, by decide⟩

/-- Claim C3 (corrected): the claim says no wildcard-containing hostname is
ever inserted into either map by any phase; in fact Phase A inserts TLS-block
hosts without any wildcard check (see the counterexample), and Phase B inserts
the reserved default host "*" (normalized from a blank rule host), which
itself contains the wildcard character.  Amended: in Phase B, any hostname
newly present in the plaintext map is wildcard-free or exactly "*", and Phase
B inserts nothing into the secure map. -/
theorem contour_C3_amended (src : Source) (ing : Ingress) (rule : IngressRule)
    (st : BuilderState) (h : String) :
    (hasVH h (computeIngressRule src ing rule st) = true →
      hasVH h st = true ∨ h.data.contains '*' = false ∨ h = "*")
    ∧ hasSVH h (computeIngressRule src ing rule st) = hasSVH h st :=
  ⟨hasVH_computeIngressRule src ing rule st h, hasSVH_computeIngressRule src ing rule st h⟩

/-- Fixture ingress for the Claim C3 counterexample: an accepted TLS block
listing a wildcard host. -/
def c3ing : Ingress :=
  { Namespace := "default", Name := "w",
    Spec := ⟨[⟨"sec1", ["*.wild.com"]⟩], [], none⟩,
    tlsRequired := false, httpAllowed := true, websocketRoutes := [],
    minTLSVersion := "1.2", timeoutPolicy := fixTimeout, retryPolicy := fixRetry }

/-- Fixture source for the Claim C3 counterexample. -/
def c3src : Source :=
  { ingresses := [c3ing],
    LookupSecret := fun n => if n = ⟨"default", "sec1"⟩ then some ⟨"default", "sec1"⟩ else none,
    LookupService := fun _ _ => none,
    DelegationPermitted := fun _ _ => true }

/-- Claim C3 counterexample: a full processor run inserts the hostname
"*.wild.com" — which contains a wildcard character — into the secure
virtual-host map, because Phase A applies no wildcard filter to TLS hosts. -/
theorem contour_C3_counterexample :
    hasSVH "*.wild.com" (IngressProcessorRun c3src emptyBuilderState) = true
    ∧ ("*.wild.com" : String).data.contains '*' = true :=
  ⟨by decide, by decide⟩

/-- Fixture ingress shared by the Claim C3 and C4 witnesses: a plain HTTP rule
with one resolving path. -/
def cbing : Ingress :=
  { Namespace := "default", Name := "e",
    Spec := ⟨[], [⟨"echo.example.com", some ⟨[⟨"/", ⟨"echo", 80⟩⟩]⟩⟩], none⟩,
    tlsRequired := false, httpAllowed := true, websocketRoutes := [],
    minTLSVersion := "", timeoutPolicy := fixTimeout, retryPolicy := fixRetry }

/-- Fixture source shared by the Claim C3 and C4 witnesses. -/
def cbsrc : Source :=
  { ingresses := [cbing],
    LookupSecret := fun _ => none,
    LookupService := fun n p => if n = ⟨"default", "echo"⟩ ∧ p = 80 then some fixService else none,
    DelegationPermitted := fun _ _ => false }

/-- Fixture rule shared by the Claim C3 and C4 witnesses. -/
def cbrule : IngressRule := ⟨"echo.example.com", some ⟨[⟨"/", ⟨"echo", 80⟩⟩]⟩⟩

/-- Claim C3 witness: concrete instance of the amended theorem. -/
theorem contour_C3_witness :
    (hasVH "echo.example.com" emptyBuilderState = true
      ∨ ("echo.example.com" : String).data.contains '*' = false
      ∨ "echo.example.com" = "*")
    ∧ hasSVH "echo.example.com" (computeIngressRule cbsrc cbing cbrule emptyBuilderState)
        = hasSVH "echo.example.com" emptyBuilderState :=
  ⟨(contour_C3_amended cbsrc cbing cbrule emptyBuilderState "echo.example.com").1 (by decide),
   (contour_C3_amended cbsrc cbing cbrule emptyBuilderState "echo.example.com").2⟩

/-- Claim C4 (confirmed): for a rule with one resolving path, the built Route
is appended to the plaintext virtual host of the rule's normalized host if and
only if the ingress's TLS-required or HTTP-allowed annotation flag is set. -/
theorem contour_C4 (src : Source) (ing : Ingress) (rule : IngressRule) (st : BuilderState)
    (hp : HTTPIngressPath) (s : Service) (h : String)
    (hw : rule.Host.data.contains '*' = false)
    (hnorm : (if rule.Host = "" then "*" else rule.Host) = h)
    (hpaths : httppaths rule = [hp])
    (hs : src.LookupService ⟨ing.Namespace, hp.Backend.ServiceName⟩ hp.Backend.ServicePort
      = some s) :
    (vhRoutes h (computeIngressRule src ing rule st)
        = vhRoutes h st ++ [route ing (stringOrDefault hp.Path "/") s])
      ↔ (ing.tlsRequired || ing.httpAllowed) = true := by
  have hred : computeIngressRule src ing rule st = processOnePath src ing h hp st := by
    simp only [computeIngressRule]
    rw [if_neg (by rw [hw]; exact Bool.noConfusion)]
    rw [hnorm, hpaths]
    rfl
  rw [hred]
  simp only [processOnePath, hs]
  rw [vhRoutes_attachSecure]
  cases hflag : (ing.tlsRequired || ing.httpAllowed) with
  | false =>
    rw [show attachPlain false h (route ing (stringOrDefault hp.Path "/") s) st = st from rfl]
    exact iff_of_false (self_ne_append_singleton _ _) (fun hc => Bool.noConfusion hc)
  | true =>
    rw [vhRoutes_attachPlain_true]
    exact iff_of_true rfl rfl

/-- Claim C4 witness: on a concrete snapshot with HTTP allowed, the Route is
appended to the plaintext virtual host. -/
theorem contour_C4_witness :
    vhRoutes "echo.example.com" (computeIngressRule cbsrc cbing cbrule emptyBuilderState)
      = vhRoutes "echo.example.com" emptyBuilderState
        ++ [route cbing (stringOrDefault "/" "/") fixService] :=
  (contour_C4 cbsrc cbing cbrule emptyBuilderState ⟨"/", ⟨"echo", 80⟩⟩ fixService
    "echo.example.com" (by decide) (by decide) (by decide) (by decide)).mpr (by decide)

/-- Claim C6 (confirmed): a TLS block whose secret lookup/validation fails, or
whose delegation is denied, leaves the secure virtual-host map unchanged and
appends exactly one diagnostic carrying the ingress name, its namespace and
the attempted secret name; and processing the remaining TLS blocks yields the
same secure virtual hosts as if the failing block were absent. -/
theorem contour_C6 (src : Source) (ing : Ingress) (tls : IngressTLS)
    (rest : List IngressTLS) (st : BuilderState)
    (hfail : src.LookupSecret (NamespacedNameFrom tls.SecretName ing.Namespace) = none
      ∨ src.DelegationPermitted (NamespacedNameFrom tls.SecretName ing.Namespace) ing.Namespace
          = false) :
    (processTLS src ing tls st).securevirtualhosts = st.securevirtualhosts
    ∧ (∃ msg, (processTLS src ing tls st).diagnostics
        = st.diagnostics
          ++ [⟨ing.Name, ing.Namespace, NamespacedNameFrom tls.SecretName ing.Namespace, msg⟩])
    ∧ (processTLSList src ing (tls :: rest) st).securevirtualhosts
        = (processTLSList src ing rest st).securevirtualhosts := by
  have key : (processTLS src ing tls st).securevirtualhosts = st.securevirtualhosts
      ∧ ∃ msg, (processTLS src ing tls st).diagnostics
          = st.diagnostics
            ++ [⟨ing.Name, ing.Namespace, NamespacedNameFrom tls.SecretName ing.Namespace,
                 msg⟩] := by
    cases hsec : src.LookupSecret (NamespacedNameFrom tls.SecretName ing.Namespace) with
    | none =>
      exact ⟨by simp [processTLS, hsec], ⟨"unresolved secret reference",
        by simp [processTLS, hsec]⟩⟩
    | some sec =>
      have hdel : src.DelegationPermitted (NamespacedNameFrom tls.SecretName ing.Namespace)
          ing.Namespace = false := by
        rcases hfail with hf | hf
        · rw [hsec] at hf; exact Option.noConfusion hf
        · exact hf
      exact ⟨by simp [processTLS, hsec, hdel], ⟨"certificate delegation not permitted",
        by simp [processTLS, hsec, hdel]⟩⟩
  refine ⟨key.1, key.2, ?_⟩
  rw [show processTLSList src ing (tls :: rest) st
      = processTLSList src ing rest (processTLS src ing tls st) from rfl]
  exact processTLSList_svh_congr src ing rest _ _ key.1

/-- Fixture ingress for the Claim C6 witness: its TLS block names a secret
that does not resolve. -/
def c6ing : Ingress :=
  { Namespace := "default", Name := "f",
    Spec := ⟨[⟨"nosec", ["h.com"]⟩], [], none⟩,
    tlsRequired := false, httpAllowed := true, websocketRoutes := [],
    minTLSVersion := "", timeoutPolicy := fixTimeout, retryPolicy := fixRetry }

/-- Fixture source for the Claim C6 witness: no secret resolves. -/
def c6src : Source :=
  { ingresses := [c6ing],
    LookupSecret := fun _ => none,
    LookupService := fun _ _ => none,
    DelegationPermitted := fun _ _ => true }

/-- Fixture failing TLS block for the Claim C6 witness. -/
def c6tls : IngressTLS := ⟨"nosec", ["h.com"]⟩

/-- Claim C6 witness: concrete instance of the error-handling theorem. -/
theorem contour_C6_witness :
    (processTLS c6src c6ing c6tls emptyBuilderState).securevirtualhosts
        = emptyBuilderState.securevirtualhosts
    ∧ (∃ msg, (processTLS c6src c6ing c6tls emptyBuilderState).diagnostics
        = emptyBuilderState.diagnostics
          ++ [⟨c6ing.Name, c6ing.Namespace,
               NamespacedNameFrom c6tls.SecretName c6ing.Namespace, msg⟩])
    ∧ (processTLSList c6src c6ing (c6tls :: []) emptyBuilderState).securevirtualhosts
        = (processTLSList c6src c6ing [] emptyBuilderState).securevirtualhosts :=
  contour_C6 c6src c6ing c6tls [] emptyBuilderState (Or.inl (by decide))

/-- Claim C7 (corrected): the claim asserts unconditionally that a TLS-free,
default-backend-only ingress gets a "/" Route on the "*" virtual host; the
source only attaches the plaintext route when TLS-required or HTTP-allowed is
set, so with both annotation flags false nothing is attached (see the
counterexample).  Amended with that flag condition added. -/
theorem contour_C7_amended (src : Source) (ing : Ingress) (st : BuilderState)
    (be : IngressBackend) (s : Service)
    (_htls : ing.Spec.TLS = [])
    (hrules : ing.Spec.Rules = [])
    (hbe : ing.Spec.Backend = some be)
    (hs : src.LookupService ⟨ing.Namespace, be.ServiceName⟩ be.ServicePort = some s)
    (hflag : (ing.tlsRequired || ing.httpAllowed) = true) :
    vhRoutes "*" (computeIngress src ing st) = vhRoutes "*" st ++ [route ing "/" s]
    ∧ (route ing "/" s).PathMatchCondition = MatchCondition.PrefixMatchCondition "/" := by
  constructor
  · simp only [computeIngress, rulesFromSpec, hbe, hrules, List.nil_append]
    rw [show processRules src ing [defaultBackendRule be] st
        = computeIngressRule src ing (defaultBackendRule be) st from rfl]
    simp only [computeIngressRule, defaultBackendRule]
    rw [if_neg (by decide)]
    rw [if_pos trivial]
    simp only [httppaths]
    rw [show processPaths src ing "*" [⟨"", ⟨be.ServiceName, be.ServicePort⟩⟩] st
        = processOnePath src ing "*" ⟨"", ⟨be.ServiceName, be.ServicePort⟩⟩ st from rfl]
    simp only [processOnePath, hs]
    rw [show stringOrDefault "" "/" = "/" from by decide]
    rw [attachSecure_star, hflag, vhRoutes_attachPlain_true]
  · simp only [route]
    rw [if_neg (by decide)]

/-- Fixture ingress for the Claim C7 counterexample: default backend only, no
TLS, and both annotation flags false. -/
def c7ing : Ingress :=
  { Namespace := "default", Name := "d",
    Spec := ⟨[], [], some ⟨"echo", 80⟩⟩,
    tlsRequired := false, httpAllowed := false, websocketRoutes := [],
    minTLSVersion := "", timeoutPolicy := fixTimeout, retryPolicy := fixRetry }

/-- Fixture source for the Claim C7 counterexample. -/
def c7src : Source :=
  { ingresses := [c7ing],
    LookupSecret := fun _ => none,
    LookupService := fun n p => if n = ⟨"default", "echo"⟩ ∧ p = 80 then some fixService else none,
    DelegationPermitted := fun _ _ => false }

/-- Claim C7 counterexample: the ingress has no TLS block, only a default
backend whose Service resolves, yet after the full processor run the "*"
virtual host carries no route, because both annotation flags are false. -/
theorem contour_C7_counterexample :
    c7ing.Spec.TLS = [] ∧ c7ing.Spec.Rules = []
    ∧ c7ing.Spec.Backend = some ⟨"echo", 80⟩
    ∧ c7src.LookupService ⟨"default", "echo"⟩ 80 = some fixService
    ∧ vhRoutes "*" (IngressProcessorRun c7src emptyBuilderState) = [] :=
  ⟨rfl, rfl, rfl, by decide, by decide⟩

/-- Fixture ingress for the Claim C7 witness: like the counterexample but with
HTTP allowed. -/
def c7wing : Ingress :=
  { Namespace := "default", Name := "d",
    Spec := ⟨[], [], some ⟨"echo", 80⟩⟩,
    tlsRequired := false, httpAllowed := true, websocketRoutes := [],
    minTLSVersion := "", timeoutPolicy := fixTimeout, retryPolicy := fixRetry }

/-- Fixture source for the Claim C7 witness. -/
def c7wsrc : Source :=
  { ingresses := [c7wing],
    LookupSecret := fun _ => none,
    LookupService := fun n p => if n = ⟨"default", "echo"⟩ ∧ p = 80 then some fixService else none,
    DelegationPermitted := fun _ _ => false }

/-- Claim C7 witness: concrete instance of the amended theorem. -/
theorem contour_C7_witness :
    vhRoutes "*" (computeIngress c7wsrc c7wing emptyBuilderState)
      = vhRoutes "*" emptyBuilderState ++ [route c7wing "/" fixService]
    ∧ (route c7wing "/" fixService).PathMatchCondition
        = MatchCondition.PrefixMatchCondition "/" :=
  contour_C7_amended c7wsrc c7wing emptyBuilderState ⟨"echo", 80⟩ fixService rfl rfl rfl
    (by decide) rfl

end Contour
